import Mathlib

/-!
# Verification of the PyBuses resolution engine

Shallow embedding of `pybuses/core.py` and `pybuses/assets.py`:
the provider registry, the ordered-fallback dispatch (`find_stop`,
`save_stop`, `delete_stop`, `get_buses`), the bus-list sort, the bulk
scanner (`find_all_stops`) with its shared `Counter` cursor, and the
`Stop` data type.

Providers are modelled as pure functions from their inputs to an outcome
type listing the normal return and the exception kinds that the provider
contract (spec section 6) allows the provider to signal; the dispatch loops
are translated clause by clause from the Python `for`/`try` bodies.
Dispatch functions additionally return the trace of provider indices they
invoked, so that "provider k is invoked exactly once / never invoked"
properties can be stated.  Numeric coordinates are modelled over `ℚ`
(the Python `float(x)` conversion is the identity on the numeric values
considered here), stop IDs over `ℤ` (Python `int`).
-/

namespace PyBusesSpec

/-! ## Data model (`assets.py`) -/

/-- A Bus (`assets.py` lines 16-43).  `line` and `route` are stripped on
construction (`Bus.make`); `time` is the numeric ETA (required numeric per
spec section 3; the sorting code compares it).  The open-ended `other` bag
is modelled as an association list. -/
structure Bus where
  line : String
  route : String
  time : Int
  distance : Option Int
  other : List (String × String)
deriving DecidableEq

/-- The `Bus.__init__` constructor: `line` and `route` are cast to string
and stripped, `other` defaults to the empty dict. -/
def Bus.make (line route : String) (time : Int) (distance : Option Int)
    (other : Option (List (String × String))) : Bus :=
  { line := line.trim
    route := route.trim
    time := time
    distance := distance
    other := other.getD [] }

/-- A bus Stop (`assets.py` lines 58-97). -/
structure Stop where
  stopid : Int
  name : String
  lat : Option Rat
  lon : Option Rat
  other : List (String × String)
deriving DecidableEq

/-- The `Stop.__init__` constructor (`assets.py` lines 60-90):
`stopid` is cast to int, `name` stripped, and if `lat is None or lon is None`
then both coordinates are set to `None`, else both are kept
(`float()` on an already numeric value is the identity). -/
def Stop.make (stopid : Int) (name : String) (lat lon : Option Rat)
    (other : Option (List (String × String))) : Stop :=
  { stopid := stopid
    name := name.trim
    other := other.getD []
    lat := if lat = none ∨ lon = none then none else lat
    lon := if lat = none ∨ lon = none then none else lon }

/-- `Stop.has_location` (`assets.py` line 97):
`return not (self.lat, self.lon) == (None, None)`. -/
def Stop.has_location (s : Stop) : Bool :=
  decide (¬ (s.lat = none ∧ s.lon = none))

/-! ## Provider outcomes

Per the provider contracts of spec section 6, a Stop-Getter either returns a
Stop or signals `StopGetterUnavailable`, `StopNotFound` or `StopNotExist`;
a Stop-Setter / Stop-Deleter either returns normally or signals its
`...Unavailable` kind; a Bus-Getter either returns a bus list or signals
`BusGetterUnavailable`. -/

inductive GetterOutcome where
  | ok (s : Stop)
  | unavailable
  | notFound
  | notExist
deriving DecidableEq

inductive SetterOutcome where
  | ok
  | unavailable
deriving DecidableEq

inductive DeleterOutcome where
  | ok
  | unavailable
deriving DecidableEq

inductive BusGetterOutcome where
  | ok (buses : List Bus)
  | unavailable
deriving DecidableEq

/-- A Stop-Getter: `(stopid: int) -> Stop` plus its exception kinds. -/
def StopGetterF : Type := Int → GetterOutcome

/-- A Stop-Setter: `(stop: Stop, update: bool) -> None` plus its exception
kind. -/
def StopSetterF : Type := Stop → Bool → SetterOutcome

/-- A Stop-Deleter: `(stopid: int) -> None` plus its exception kind. -/
def StopDeleterF : Type := Int → DeleterOutcome

/-- A Bus-Getter: `(stopid: int) -> List[Bus]` plus its exception kind. -/
def BusGetterF : Type := Int → BusGetterOutcome

/-- A registered Stop-Getter.  The source attaches an `online` attribute
directly to the function object (`add_stop_getter`, `core.py` lines
311-317); the model pairs the function with that dynamic attribute:
`onlineAttr = none` means the attribute is absent from `f.__dict__`,
`onlineAttr = some b` means `f.online == b`. -/
structure RegGetter where
  fn : StopGetterF
  onlineAttr : Option Bool

/-- The PyBuses registry state (`core.py` lines 53-95): ordered provider
lists plus the `use_all_*` policy flags.  Bus setters and deleters are
omitted: `save_buses` / `delete_buses` are `pass` in the source. -/
structure PyBuses where
  stop_getters : List RegGetter
  stop_setters : List StopSetterF
  stop_deleters : List StopDeleterF
  bus_getters : List BusGetterF
  use_all_stop_setters : Bool
  use_all_stop_deleters : Bool

/-- `add_stop_getter(f, online)` (`core.py` lines 311-317): try to attach
the `online` attribute to `f`, silently swallowing `AttributeError` when the
callable rejects attribute assignment (`settable = false`), then append `f`
to the getter list. -/
def PyBuses.add_stop_getter (pb : PyBuses) (f : RegGetter) (online : Bool)
    (settable : Bool) : PyBuses :=
  { pb with stop_getters :=
      pb.stop_getters ++ [if settable then { f with onlineAttr := some online } else f] }

/-- `get_stop_getters(online)` (`core.py` lines 331-339): with
`online=True`, keep exactly the getters whose `__dict__` holds an `online`
key equal to `True`; otherwise return the whole list. -/
def PyBuses.get_stop_getters (pb : PyBuses) (online : Bool) : List RegGetter :=
  if online then pb.stop_getters.filter (fun g => g.onlineAttr = some true)
  else pb.stop_getters

def PyBuses.get_stop_setters (pb : PyBuses) : List StopSetterF :=
  pb.stop_setters

def PyBuses.get_stop_deleters (pb : PyBuses) : List StopDeleterF :=
  pb.stop_deleters

def PyBuses.get_bus_getters (pb : PyBuses) : List BusGetterF :=
  pb.bus_getters

/-! ## `find_stop` (`core.py` lines 97-116) -/

inductive FindStopResult where
  | ok (s : Stop)
  | missingGetters
  | notFound
  | notExist
  | getterUnavailable
deriving DecidableEq

/-- The `for getter in getters` loop of `find_stop` (`core.py` lines
111-116): return the first getter's Stop; `StopGetterUnavailable` means try
the next getter; any other exception (`StopNotFound`, `StopNotExist`)
propagates unchanged; an exhausted loop raises `StopGetterUnavailable`.
`idx` is the registry index of the first getter of `getters`; the second
component of the result is the trace of getter indices invoked, in order. -/
def find_stop_go (getters : List StopGetterF) (stopid : Int) (idx : Nat) :
    FindStopResult × List Nat :=
  match getters with
  | [] => (.getterUnavailable, [])
  | g :: rest =>
    match g stopid with
    | .ok s => (.ok s, [idx])
    | .unavailable =>
      let r := find_stop_go rest stopid (idx + 1)
      (r.1, idx :: r.2)
    | .notFound => (.notFound, [idx])
    | .notExist => (.notExist, [idx])

/-- `find_stop(stopid, online)` (`core.py` lines 97-116): select the getter
list via `get_stop_getters(online)`, raise `MissingGetters` when it is
empty, otherwise run the dispatch loop. -/
def PyBuses.find_stop (pb : PyBuses) (stopid : Int) (online : Bool) :
    FindStopResult × List Nat :=
  let getters := (pb.get_stop_getters online).map RegGetter.fn
  if getters.isEmpty then (.missingGetters, [])
  else find_stop_go getters stopid 0

/-! ## `save_stop` (`core.py` lines 118-150) -/

inductive SaveStopResult where
  | ok
  | missingSetters
  | setterUnavailable
deriving DecidableEq

/-- The `for setter in setters` loop of `save_stop` (`core.py` lines
137-148): each setter is invoked as `setter(stop, update=update)`;
`StopSetterUnavailable` means skip to the next setter; a normal return sets
`success = True` and, when `use_all_stop_setters` is false, breaks out of
the loop.  Returns the final `success` flag and the trace of setter calls
made, in order, each as `(setter index, outcome)` (`idx` is the index of
the first setter of `setters`). -/
def save_stop_go (setters : List StopSetterF) (stop : Stop) (update : Bool)
    (useAll : Bool) (success : Bool) (idx : Nat) :
    Bool × List (Nat × SetterOutcome) :=
  match setters with
  | [] => (success, [])
  | f :: rest =>
    match f stop update with
    | .unavailable =>
      let r := save_stop_go rest stop update useAll success (idx + 1)
      (r.1, (idx, .unavailable) :: r.2)
    | .ok =>
      if useAll then
        let r := save_stop_go rest stop update useAll true (idx + 1)
        (r.1, (idx, .ok) :: r.2)
      else (true, [(idx, .ok)])

/-- `save_stop(stop, update, use_all_stop_setters)` (`core.py` lines
118-150): raise `MissingSetters` on an empty setter list; a `None`
`use_all_stop_setters` argument defaults to the instance flag; after the
loop, raise `StopSetterUnavailable` when no setter succeeded. -/
def PyBuses.save_stop (pb : PyBuses) (stop : Stop) (update : Bool)
    (use_all_stop_setters : Option Bool) :
    SaveStopResult × List (Nat × SetterOutcome) :=
  let setters := pb.get_stop_setters
  if setters.isEmpty then (.missingSetters, [])
  else
    let useAll := use_all_stop_setters.getD pb.use_all_stop_setters
    let r := save_stop_go setters stop update useAll false 0
    (if r.1 then .ok else .setterUnavailable, r.2)

/-! ## `delete_stop` (`core.py` lines 152-177) -/

inductive DeleteStopResult where
  | ok
  | missingDeleters
  | deleterUnavailable
deriving DecidableEq

/-- The `for deleter in deleters` loop of `delete_stop` (`core.py` lines
166-175): each deleter is invoked with `stopid`; `StopDeleterUnavailable`
means skip; a normal return sets `success = True` and, when
`use_all_stop_deleters` is false, breaks. -/
def delete_stop_go (deleters : List StopDeleterF) (stopid : Int)
    (useAll : Bool) (success : Bool) (idx : Nat) :
    Bool × List (Nat × DeleterOutcome) :=
  match deleters with
  | [] => (success, [])
  | f :: rest =>
    match f stopid with
    | .unavailable =>
      let r := delete_stop_go rest stopid useAll success (idx + 1)
      (r.1, (idx, .unavailable) :: r.2)
    | .ok =>
      if useAll then
        let r := delete_stop_go rest stopid useAll true (idx + 1)
        (r.1, (idx, .ok) :: r.2)
      else (true, [(idx, .ok)])

/-- `delete_stop(stopid)` (`core.py` lines 152-177): raise
`MissingDeleters` on an empty deleter list; the loop uses the instance flag
`use_all_stop_deleters` (construction default `True`); after the loop,
raise `StopDeleterUnavailable` when no deleter succeeded. -/
def PyBuses.delete_stop (pb : PyBuses) (stopid : Int) :
    DeleteStopResult × List (Nat × DeleterOutcome) :=
  let deleters := pb.get_stop_deleters
  if deleters.isEmpty then (.missingDeleters, [])
  else
    let r := delete_stop_go deleters stopid pb.use_all_stop_deleters false 0
    (if r.1 then .ok else .deleterUnavailable, r.2)

/-! ## `get_buses` and the bus sort (`core.py` lines 275-303)

Python's `list.sort(key=k, reverse=rev)` is a stable sort by the key
(reversal does not disturb the relative order of equal keys).  A stable
sort by a total preorder is uniquely determined by its input, so it is
modelled by `List.insertionSort` (proved stable below) over the pulled-back
key order, reversed when `reverse=True`. -/

/-- `BusSortMethods = BusSortMethods(NONE=0, TIME=1, LINE=2, ROUTE=3)`
(`core.py` lines 18-19). -/
def BusSortMethods_NONE : Int := 0
def BusSortMethods_TIME : Int := 1
def BusSortMethods_LINE : Int := 2
def BusSortMethods_ROUTE : Int := 3

/-- `buses.sort(key=k, reverse=reverse)`: stable sort by the key `k`,
ascending, or descending when `reverse` is true. -/
def pySortByKey {α κ : Type} [LinearOrder κ] (k : α → κ) (reverse : Bool)
    (l : List α) : List α :=
  if reverse then l.insertionSort (fun a b => k b ≤ k a)
  else l.insertionSort (fun a b => k a ≤ k b)

/-- The sort dispatch of `get_buses` (`core.py` lines 294-299): `sort_by`
equal to `TIME`/`LINE`/`ROUTE` sorts by the respective field; any other
value (including `NONE` and `None`) leaves the list untouched. -/
def pySortBuses (buses : List Bus) (sort_by : Option Int) (reverse : Bool) :
    List Bus :=
  if sort_by = some BusSortMethods_TIME then
    pySortByKey (fun b => b.time) reverse buses
  else if sort_by = some BusSortMethods_LINE then
    pySortByKey (fun b => b.line) reverse buses
  else if sort_by = some BusSortMethods_ROUTE then
    pySortByKey (fun b => b.route) reverse buses
  else buses

inductive GetBusesResult where
  | ok (buses : List Bus)
  | missingGetters
  | busGetterUnavailable
deriving DecidableEq

/-- The `for getter in getters` loop of `get_buses` (`core.py` lines
291-303): the first getter that does not signal `BusGetterUnavailable`
supplies the list, which is sorted and returned; an exhausted loop raises
`BusGetterUnavailable`. -/
def get_buses_go (getters : List BusGetterF) (stopid : Int)
    (sort_by : Option Int) (reverse : Bool) : GetBusesResult :=
  match getters with
  | [] => .busGetterUnavailable
  | g :: rest =>
    match g stopid with
    | .unavailable => get_buses_go rest stopid sort_by reverse
    | .ok buses => .ok (pySortBuses buses sort_by reverse)

/-- `get_buses(stopid, sort_by=TIME, reverse=False)` (`core.py` lines
275-303). -/
def PyBuses.get_buses (pb : PyBuses) (stopid : Int) (sort_by : Option Int)
    (reverse : Bool) : GetBusesResult :=
  if pb.get_bus_getters.isEmpty then .missingGetters
  else get_buses_go pb.get_bus_getters stopid sort_by reverse

/-! ## The bulk scanner `find_all_stops` (`core.py` lines 179-273) -/

/-- What one `_find_stop_and_save(stopid)` call did: the getter indices it
invoked, in order, and the `(setter index, stop)` setter calls it made, in
order. -/
structure ProbeTrace where
  gettersInvoked : List Nat
  setterCalls : List (Nat × Stop)
deriving DecidableEq

/-- The `for getter in getters` loop of `_find_stop_and_save` (`core.py`
lines 218-235): `StopGetterUnavailable` means try the next getter;
`StopNotFound`/`StopNotExist` means try the next getter when
`use_all_stop_getters` else break; on success, `save_stop(stop, update,
use_all_stop_setters)` is called, `StopSetterUnavailable` swallowed
(`MissingSetters` is unreachable here: `find_all_stops` checks the setter
list before any probe), and the loop continues with the next getter
(the source has no `break` in the success branch). -/
def find_stop_and_save_go (pb : PyBuses) (getters : List StopGetterF)
    (stopid : Int) (update use_all_stop_getters : Bool)
    (use_all_stop_setters : Option Bool) (idx : Nat) : ProbeTrace :=
  match getters with
  | [] => ⟨[], []⟩
  | g :: rest =>
    match g stopid with
    | .unavailable =>
      let t := find_stop_and_save_go pb rest stopid update
        use_all_stop_getters use_all_stop_setters (idx + 1)
      ⟨idx :: t.gettersInvoked, t.setterCalls⟩
    | .notFound =>
      if use_all_stop_getters then
        let t := find_stop_and_save_go pb rest stopid update
          use_all_stop_getters use_all_stop_setters (idx + 1)
        ⟨idx :: t.gettersInvoked, t.setterCalls⟩
      else ⟨[idx], []⟩
    | .notExist =>
      if use_all_stop_getters then
        let t := find_stop_and_save_go pb rest stopid update
          use_all_stop_getters use_all_stop_setters (idx + 1)
        ⟨idx :: t.gettersInvoked, t.setterCalls⟩
      else ⟨[idx], []⟩
    | .ok stop =>
      let sv := pb.save_stop stop update use_all_stop_setters
      let t := find_stop_and_save_go pb rest stopid update
        use_all_stop_getters use_all_stop_setters (idx + 1)
      ⟨idx :: t.gettersInvoked, sv.2.map (fun j => (j.1, stop)) ++ t.setterCalls⟩

/-- `_find_stop_and_save(stopid)` over the whole online-getter list. -/
def find_stop_and_save (pb : PyBuses) (getters : List StopGetterF)
    (stopid : Int) (update use_all_stop_getters : Bool)
    (use_all_stop_setters : Option Bool) : ProbeTrace :=
  find_stop_and_save_go pb getters stopid update use_all_stop_getters
    use_all_stop_setters 0

/-- The shared scan cursor (`class Counter`, `core.py` lines 243-257),
without its lock: `Counter.get` models the whole lock-protected critical
section, executed atomically. -/
structure Counter where
  value : Int
  limit : Int
deriving DecidableEq

/-- `Counter.get` (`core.py` lines 249-257): under the lock, read the
current value; if it exceeds the limit raise `IndexError` (`none`),
otherwise increment and return the read value. -/
def Counter.get (c : Counter) : Option (Int × Counter) :=
  if c.value > c.limit then none
  else some (c.value, { c with value := c.value + 1 })

/-- Claim values produced by `n` successive atomic `Counter.get` calls
(a worker stops at the first `IndexError`; since a refused `get` leaves the
counter unchanged, stopping at the first `none` loses nothing).  Any
interleaving of the scan workers performs exactly such a sequence of atomic
claims on the shared counter. -/
def runGets : Nat → Counter → List Int
  | 0, _ => []
  | Nat.succ n, c =>
    match c.get with
    | none => []
    | some (v, c') => v :: runGets n c'

/-- `range(start, end+1)` (`core.py` line 238). -/
def idRange (start endId : Int) : List Int :=
  (List.range (endId + 1 - start).toNat).map (fun i : Nat => start + (i : Int))

/-- Result of a `find_all_stops` call.  `ok` carries the sequential-mode
probes as `(stopid, trace)` pairs in probe order; `threadsStarted` is the
threaded mode, where the call returns right after starting the workers,
carrying the shared counter it initialized (worker behaviour is modelled by
`runGets` and `find_stop_and_save`). -/
inductive ScanResult where
  | ok (probes : List (Int × ProbeTrace))
  | missingGetters
  | missingSetters
  | threadsStarted (counter : Counter)
deriving DecidableEq

/-- `find_all_stops(end, start=1, threads=0, update=True,
use_all_stop_getters=False, use_all_stop_setters=None)` (`core.py` lines
179-273): select the online getters and fail with `MissingGetters` /
`MissingSetters` when getters or setters are missing; with `threads <= 0`
probe `range(start, end+1)` sequentially; with `threads > 0` create
`Counter(initial=start, limit=end)` and start the workers. -/
def PyBuses.find_all_stops (pb : PyBuses) (endId : Int) (start : Int)
    (threads : Int) (update use_all_stop_getters : Bool)
    (use_all_stop_setters : Option Bool) : ScanResult :=
  let getters := (pb.get_stop_getters true).map RegGetter.fn
  if getters.isEmpty then .missingGetters
  else if pb.get_stop_setters.isEmpty then .missingSetters
  else if threads ≤ 0 then
    .ok ((idRange start endId).map (fun stopid =>
      (stopid, find_stop_and_save pb getters stopid update
        use_all_stop_getters use_all_stop_setters)))
  else .threadsStarted { value := start, limit := endId }

/-! ## Derived notions used by the statements -/

/-- The `FindStopResult` a getter outcome produces when the dispatch loop
of `find_stop` terminates on it (any outcome other than `unavailable` ends
the loop). -/
def GetterOutcome.terminalResult : GetterOutcome → FindStopResult
  | .ok s => .ok s
  | .unavailable => .getterUnavailable
  | .notFound => .notFound
  | .notExist => .notExist

/-- The setter calls that one probe success on `stop` contributes: the
`save_stop` trace, each call paired with the saved stop. -/
def probeSaveCalls (pb : PyBuses) (stop : Stop) (update : Bool)
    (use_all_stop_setters : Option Bool) : List (Nat × Stop) :=
  (pb.save_stop stop update use_all_stop_setters).2.map (fun j => (j.1, stop))

/-! ## Concrete configurations for counterexamples and witnesses -/

/-- A concrete stop: `Stop(5, "Main St")` (the name is already stripped, so
the structure literal coincides with `Stop.make`). -/
def stopMain : Stop :=
  { stopid := 5, name := "Main St", lat := none, lon := none, other := [] }

/-- A concrete stop with a location: `Stop(10, "Harbour", 42.1, -8.6)`
(coordinates as rationals). -/
def stopHarbour : Stop :=
  { stopid := 10, name := "Harbour", lat := some (421/10), lon := some (-86/10), other := [] }

/-- An online getter that finds `stopMain` for every ID. -/
def getOkMain : RegGetter := ⟨fun _ => .ok stopMain, some true⟩

/-- An online getter that finds `stopHarbour` for every ID. -/
def getOkHarbour : RegGetter := ⟨fun _ => .ok stopHarbour, some true⟩

/-- An online getter that always signals `StopGetterUnavailable`. -/
def getUnavail : RegGetter := ⟨fun _ => .unavailable, some true⟩

/-- A getter registered without an `online` attribute (attribute attachment
failed), signalling `StopNotFound` everywhere. -/
def getOffline : RegGetter := ⟨fun _ => .notFound, none⟩

/-- A setter that always succeeds. -/
def setOk : StopSetterF := fun _ _ => .ok

/-- A setter that always signals `StopSetterUnavailable`. -/
def setUnavail : StopSetterF := fun _ _ => .unavailable

/-- A deleter that always succeeds. -/
def delOk : StopDeleterF := fun _ => .ok

/-- A deleter that always signals `StopDeleterUnavailable`. -/
def delUnavail : StopDeleterF := fun _ => .unavailable

/-- Registry for the bulk-scanner scenarios: two online getters that both
find a Stop, one setter. -/
def pbScan : PyBuses :=
  { stop_getters := [getOkMain, getOkHarbour]
    stop_setters := [setOk]
    stop_deleters := [delOk]
    bus_getters := []
    use_all_stop_setters := false
    use_all_stop_deleters := true }

/-- Registry for the `[5, 5]` sequential-scan scenario of spec section 8:
a single online getter returning a Stop, a single setter. -/
def pbSingle : PyBuses :=
  { stop_getters := [getOkMain]
    stop_setters := [setOk]
    stop_deleters := [delOk]
    bus_getters := []
    use_all_stop_setters := false
    use_all_stop_deleters := true }

/-- Registry for the `findStop` fallback scenario of spec section 8:
getter A unavailable, getter B returns a Stop. -/
def pbFallback : PyBuses :=
  { stop_getters := [getUnavail, getOkHarbour]
    stop_setters := [setUnavail, setOk]
    stop_deleters := [delUnavail, delOk]
    bus_getters := []
    use_all_stop_setters := false
    use_all_stop_deleters := true }

/-- Registry for the fail-fast scenario: getter 0 unavailable, getter 1
answers not-found, getter 2 would succeed but must never be reached. -/
def pbNotFoundChain : PyBuses :=
  { stop_getters := [getUnavail, ⟨fun _ => .notFound, some true⟩, getOkHarbour]
    stop_setters := []
    stop_deleters := []
    bus_getters := []
    use_all_stop_setters := false
    use_all_stop_deleters := true }

/-- Registry whose only stop getter carries no `online` attribute. -/
def pbNoOnline : PyBuses :=
  { stop_getters := [getOffline]
    stop_setters := [setOk]
    stop_deleters := []
    bus_getters := []
    use_all_stop_setters := false
    use_all_stop_deleters := true }

/-- Concrete buses for the sorting scenarios (fields already stripped, so
the structure literals coincide with `Bus.make`): two share `time = 7`, two
share `line = "4"`. -/
def busA : Bus :=
  { line := "12", route := "Centre", time := 7, distance := none, other := [] }
def busB : Bus :=
  { line := "4", route := "Airport", time := 3, distance := none, other := [] }
def busC : Bus :=
  { line := "4", route := "Beach", time := 7, distance := none, other := [] }

/-- A bus getter returning `[busA, busB, busC]`, after one unavailable
getter. -/
def pbBuses : PyBuses :=
  { stop_getters := []
    stop_setters := []
    stop_deleters := []
    bus_getters := [fun _ => .unavailable, fun _ => .ok [busA, busB, busC]]
    use_all_stop_setters := false
    use_all_stop_deleters := true }

/-! ## Shared list lemmas -/

/-- Prepending `f idx` to an index-shifted `range`-map absorbs the shift. -/
theorem range_map_shift {α : Type} (f : Nat → α) (n idx : Nat) :
    f idx :: (List.range n).map (fun i => f (idx + 1 + i)) =
      (List.range (n + 1)).map (fun i => f (idx + i)) := by
  rw [List.range_succ_eq_map, List.map_cons, List.map_map]
  refine congrArg₂ _ (by rw [Nat.add_zero]) ?_
  apply List.map_congr_left
  intro a _
  simp only [Function.comp_apply, Nat.succ_eq_add_one]
  exact congrArg f (by omega)

/-- `range`-maps with the shift `0` are plain ranges. -/
theorem range_map_zero_add (n : Nat) :
    (List.range n).map (fun i => 0 + i) = List.range n := by
  simp

/-! ## Lemmas about the `find_stop` dispatch loop -/

/-- The dispatch loop itself never produces `MissingGetters`. -/
theorem find_stop_go_ne_missing (getters : List StopGetterF) (stopid : Int) :
    ∀ idx, (find_stop_go getters stopid idx).1 ≠ .missingGetters := by
  induction getters with
  | nil => intro idx; simp [find_stop_go]
  | cons g rest ih =>
    intro idx
    cases h : g stopid <;> simp [find_stop_go, h]
    exact ih (idx + 1)

/-- If every getter is unavailable, the loop invokes all of them in order
and fails with `StopGetterUnavailable`. -/
theorem find_stop_go_all_unavailable (getters : List StopGetterF) (stopid : Int) :
    ∀ idx, (∀ g ∈ getters, g stopid = .unavailable) →
    find_stop_go getters stopid idx =
      (.getterUnavailable, (List.range getters.length).map (fun i => idx + i)) := by
  induction getters with
  | nil => intro idx _; simp [find_stop_go]
  | cons g rest ih =>
    intro idx h
    have hg : g stopid = .unavailable := h g (List.mem_cons_self ..)
    rw [find_stop_go, hg]
    rw [ih (idx + 1) (fun g' hg' => h g' (List.mem_cons_of_mem _ hg'))]
    rw [List.length_cons]
    exact congrArg _ (range_map_shift (fun i => i) rest.length idx)

/-- If the loop fails with `StopGetterUnavailable`, every getter was
unavailable. -/
theorem find_stop_go_unavailable_imp (getters : List StopGetterF) (stopid : Int) :
    ∀ idx, (find_stop_go getters stopid idx).1 = .getterUnavailable →
    ∀ g ∈ getters, g stopid = .unavailable := by
  induction getters with
  | nil => intro idx _ g hg; cases hg
  | cons g rest ih =>
    intro idx hres g' hg'
    rcases List.mem_cons.mp hg' with rfl | hmem
    · by_contra hne
      cases h : g' stopid <;> rw [find_stop_go, h] at hres <;> simp_all
    · cases h : g stopid <;> rw [find_stop_go, h] at hres <;> try simp_all
      exact ih (idx + 1) hres g' hmem

/-- If getters `0 .. k-1` are unavailable and getter `k` terminates the
loop (any outcome other than unavailable), the loop invokes exactly getters
`0 .. k` in order and returns getter `k`'s terminal result. -/
theorem find_stop_go_terminal (stopid : Int) (getters : List StopGetterF) :
    ∀ (k idx : Nat) (hk : k < getters.length),
      (∀ g ∈ getters.take k, g stopid = .unavailable) →
      getters.get ⟨k, hk⟩ stopid ≠ .unavailable →
      find_stop_go getters stopid idx =
        ((getters.get ⟨k, hk⟩ stopid).terminalResult,
          (List.range (k + 1)).map (fun i => idx + i)) := by
  induction getters with
  | nil => intro k idx hk; simp at hk
  | cons g rest ih =>
    intro k idx hk hbefore hterm
    cases k with
    | zero =>
      cases h : g stopid with
      | unavailable => exact absurd h hterm
      | ok s => simp [find_stop_go, h, GetterOutcome.terminalResult, List.range_succ]
      | notFound => simp [find_stop_go, h, GetterOutcome.terminalResult, List.range_succ]
      | notExist => simp [find_stop_go, h, GetterOutcome.terminalResult, List.range_succ]
    | succ j =>
      have hg : g stopid = .unavailable := by
        apply hbefore g
        rw [List.take_succ_cons]
        exact List.mem_cons_self ..
      simp only [find_stop_go, hg]
      rw [ih j (idx + 1) (by simpa using hk)
        (fun g' hg' => hbefore g' (by rw [List.take_succ_cons]; exact List.mem_cons_of_mem _ hg'))
        hterm]
      exact congrArg _ (range_map_shift (fun i => i) (j + 1) idx)

/-- C3: ordered fallback for `findStop`.  If getters `0 .. k-1` all signal
`StopGetterUnavailable` and getter `k` returns a Stop, `find_stop` returns
getter `k`'s result and its invocation trace is exactly `[0, .., k]` (each
of `0 .. k` once, in order, and nothing after `k`); `find_stop` raises
`MissingGetters` iff the selected getter list is empty, and
`StopGetterUnavailable` iff the list is non-empty and every getter in it
signals `StopGetterUnavailable`. -/
theorem find_stop_ordered_fallback (pb : PyBuses) (stopid : Int) (online : Bool)
    (gs : List StopGetterF) (hgs : gs = (pb.get_stop_getters online).map RegGetter.fn) :
    (∀ (k : Nat) (hk : k < gs.length) (s : Stop),
        (∀ g ∈ gs.take k, g stopid = .unavailable) →
        gs.get ⟨k, hk⟩ stopid = .ok s →
        pb.find_stop stopid online = (.ok s, List.range (k + 1)))
    ∧ ((pb.find_stop stopid online).1 = .missingGetters ↔ gs = [])
    ∧ ((pb.find_stop stopid online).1 = .getterUnavailable ↔
        gs ≠ [] ∧ ∀ g ∈ gs, g stopid = .unavailable) := by
  subst hgs
  rw [PyBuses.find_stop]
  by_cases hemp : ((pb.get_stop_getters online).map RegGetter.fn).isEmpty = true
  · have hnil := List.isEmpty_iff.mp hemp
    rw [if_pos hemp]
    refine ⟨?_, by simp [hnil], by simp [hnil]⟩
    intro k hk
    rw [hnil] at hk
    simp at hk
  · have hnil : (pb.get_stop_getters online).map RegGetter.fn ≠ [] := by
      intro h
      exact hemp (List.isEmpty_iff.mpr h)
    rw [if_neg hemp]
    refine ⟨?_, ?_, ?_⟩
    · intro k hk s hbefore hok
      rw [find_stop_go_terminal stopid _ k 0 hk hbefore (by rw [hok]; simp)]
      rw [hok]
      rw [range_map_zero_add]
      rfl
    · simp only [hnil, iff_false]
      exact find_stop_go_ne_missing _ stopid 0
    · constructor
      · intro h
        exact ⟨hnil, find_stop_go_unavailable_imp _ stopid 0 h⟩
      · intro ⟨_, hall⟩
        rw [find_stop_go_all_unavailable _ stopid 0 hall]

/-- C3 witness: the spec section 8 example — getter A unavailable, getter B
returns `stopHarbour`; `find_stop(10)` returns B's Stop with trace
`[0, 1]`, and on an empty registry `find_stop` raises `MissingGetters`. -/
theorem find_stop_ordered_fallback_witness :
    pbFallback.find_stop 10 false = (.ok stopHarbour, [0, 1]) := by
  have h := (find_stop_ordered_fallback pbFallback 10 false
    ((pbFallback.get_stop_getters false).map RegGetter.fn) rfl).1 1 (by decide) stopHarbour
    (by
      intro g hg
      simp only [pbFallback, PyBuses.get_stop_getters, if_neg, List.map,
        List.take, List.mem_singleton] at hg
      rw [hg]
      rfl)
    rfl
  rw [h]
  rfl

/-- C2: fail-fast on not-found.  If getters `0 .. k-1` all signal
`StopGetterUnavailable` and getter `k` signals `StopNotFound`
(resp. `StopNotExist`), `find_stop` propagates exactly that error and the
invocation trace is `[0, .., k]` — no getter after `k` is invoked. -/
theorem find_stop_failfast_notfound (pb : PyBuses) (stopid : Int) (online : Bool)
    (gs : List StopGetterF) (hgs : gs = (pb.get_stop_getters online).map RegGetter.fn)
    (k : Nat) (hk : k < gs.length)
    (hbefore : ∀ g ∈ gs.take k, g stopid = .unavailable) :
    (gs.get ⟨k, hk⟩ stopid = .notFound →
      pb.find_stop stopid online = (.notFound, List.range (k + 1)))
    ∧ (gs.get ⟨k, hk⟩ stopid = .notExist →
      pb.find_stop stopid online = (.notExist, List.range (k + 1))) := by
  subst hgs
  have hemp : ((pb.get_stop_getters online).map RegGetter.fn).isEmpty ≠ true := by
    intro h
    rw [List.isEmpty_iff.mp h] at hk
    simp at hk
  constructor
  · intro hterm
    rw [PyBuses.find_stop, if_neg hemp]
    rw [find_stop_go_terminal stopid _ k 0 hk hbefore (by rw [hterm]; simp)]
    rw [hterm, range_map_zero_add]
    rfl
  · intro hterm
    rw [PyBuses.find_stop, if_neg hemp]
    rw [find_stop_go_terminal stopid _ k 0 hk hbefore (by rw [hterm]; simp)]
    rw [hterm, range_map_zero_add]
    rfl

/-- C2 witness: a chain `[unavailable, not-found, would-succeed]` — the
not-found answer of the second getter is propagated and the third getter is
never invoked (trace `[0, 1]`). -/
theorem find_stop_failfast_notfound_witness :
    pbNotFoundChain.find_stop 3 false = (.notFound, [0, 1]) := by
  have h := (find_stop_failfast_notfound pbNotFoundChain 3 false
    ((pbNotFoundChain.get_stop_getters false).map RegGetter.fn) rfl 1 (by decide)
    (by
      intro g hg
      simp only [pbNotFoundChain, PyBuses.get_stop_getters, if_neg, List.map,
        List.take, List.mem_singleton] at hg
      rw [hg]
      rfl)).1 rfl
  rw [h]
  rfl

/-! ## Lemmas about the `save_stop` loop -/

/-- With `use_all_stop_setters = True` the loop never breaks: it calls
every setter in order and succeeds iff the flag was already set or some
setter returns normally. -/
theorem save_stop_go_useAll (stop : Stop) (update : Bool)
    (setters : List StopSetterF) :
    ∀ (success : Bool) (idx : Nat),
    save_stop_go setters stop update true success idx =
      (success || setters.any (fun f => f stop update == .ok),
        (setters.enumFrom idx).map (fun p => (p.1, p.2 stop update))) := by
  induction setters with
  | nil => intro success idx; simp [save_stop_go]
  | cons f rest ih =>
    intro success idx
    cases h : f stop update with
    | unavailable =>
      simp only [save_stop_go, h, ih]
      simp [h, show (SetterOutcome.unavailable == SetterOutcome.ok) = false from rfl]
    | ok =>
      simp only [save_stop_go, h, if_pos rfl, ih]
      simp [h, show (SetterOutcome.ok == SetterOutcome.ok) = true from rfl]

/-- A loop started with `success = True` reports success. -/
theorem save_stop_go_success_true (stop : Stop) (update : Bool)
    (setters : List StopSetterF) :
    ∀ (useAll : Bool) (idx : Nat),
    (save_stop_go setters stop update useAll true idx).1 = true := by
  induction setters with
  | nil => intro useAll idx; simp [save_stop_go]
  | cons f rest ih =>
    intro useAll idx
    cases h : f stop update with
    | unavailable => simp only [save_stop_go, h]; exact ih useAll (idx + 1)
    | ok =>
      cases useAll with
      | true => simp only [save_stop_go, h, if_pos rfl]; exact ih true (idx + 1)
      | false => simp [save_stop_go, h]

/-- If the loop reports failure, it started with `success = False` and
every setter signalled `StopSetterUnavailable`. -/
theorem save_stop_go_failure (stop : Stop) (update : Bool)
    (setters : List StopSetterF) :
    ∀ (useAll success : Bool) (idx : Nat),
    (save_stop_go setters stop update useAll success idx).1 = false →
    success = false ∧ ∀ f ∈ setters, f stop update = .unavailable := by
  induction setters with
  | nil => intro useAll success idx h; simp [save_stop_go] at h; simp [h]
  | cons f rest ih =>
    intro useAll success idx hres
    cases h : f stop update with
    | unavailable =>
      rw [save_stop_go, h] at hres
      obtain ⟨hs, hall⟩ := ih useAll success (idx + 1) hres
      exact ⟨hs, by
        intro f' hf'
        rcases List.mem_cons.mp hf' with rfl | hmem
        · exact h
        · exact hall f' hmem⟩
    | ok =>
      cases useAll with
      | true =>
        rw [save_stop_go, h, if_pos rfl] at hres
        rw [save_stop_go_success_true stop update rest true (idx + 1)] at hres
        cases hres
      | false => rw [save_stop_go, h, if_neg (by simp)] at hres; cases hres

/-- If every setter is unavailable, the loop calls all of them, in order,
and keeps its incoming `success` flag. -/
theorem save_stop_go_all_unavailable (stop : Stop) (update : Bool)
    (setters : List StopSetterF) :
    ∀ (useAll success : Bool) (idx : Nat),
    (∀ f ∈ setters, f stop update = .unavailable) →
    save_stop_go setters stop update useAll success idx =
      (success, (List.range setters.length).map
        (fun i => (idx + i, SetterOutcome.unavailable))) := by
  induction setters with
  | nil => intro useAll success idx _; simp [save_stop_go]
  | cons f rest ih =>
    intro useAll success idx h
    have hf : f stop update = .unavailable := h f (List.mem_cons_self ..)
    simp only [save_stop_go, hf]
    rw [ih useAll success (idx + 1) (fun f' hf' => h f' (List.mem_cons_of_mem _ hf'))]
    rw [List.length_cons]
    exact congrArg _
      (range_map_shift (fun i => (i, SetterOutcome.unavailable)) rest.length idx)

/-- With `use_all_stop_setters = False`, if setters `0 .. k-1` are
unavailable and setter `k` succeeds, the loop succeeds and stops right
after setter `k`. -/
theorem save_stop_go_first_success (stop : Stop) (update : Bool)
    (setters : List StopSetterF) :
    ∀ (k : Nat) (success : Bool) (idx : Nat) (hk : k < setters.length),
    (∀ f ∈ setters.take k, f stop update = .unavailable) →
    setters.get ⟨k, hk⟩ stop update = .ok →
    save_stop_go setters stop update false success idx =
      (true, (List.range k).map (fun i => (idx + i, SetterOutcome.unavailable))
        ++ [(idx + k, SetterOutcome.ok)]) := by
  induction setters with
  | nil => intro k success idx hk; simp at hk
  | cons f rest ih =>
    intro k success idx hk hbefore hok
    cases k with
    | zero =>
      have hok' : f stop update = SetterOutcome.ok := hok
      simp [save_stop_go, hok']
    | succ j =>
      have hf : f stop update = .unavailable := by
        apply hbefore f
        rw [List.take_succ_cons]
        exact List.mem_cons_self ..
      simp only [save_stop_go, hf]
      rw [ih j success (idx + 1) (by simpa using hk)
        (fun f' hf' => hbefore f' (by rw [List.take_succ_cons]; exact List.mem_cons_of_mem _ hf'))
        hok]
      dsimp only
      rw [← List.cons_append]
      have hidx : idx + 1 + j = idx + (j + 1) := by omega
      exact congrArg _ (congrArg₂ _
        (range_map_shift (fun i => (i, SetterOutcome.unavailable)) j idx)
        (by rw [hidx]))

/-- With `use_all_stop_setters = False` at most one call in the trace has a
successful outcome. -/
theorem save_stop_go_at_most_one_ok (stop : Stop) (update : Bool)
    (setters : List StopSetterF) :
    ∀ (success : Bool) (idx : Nat),
    ((save_stop_go setters stop update false success idx).2.countP
      (fun c => c.2 == SetterOutcome.ok)) ≤ 1 := by
  induction setters with
  | nil => intro success idx; simp [save_stop_go]
  | cons f rest ih =>
    intro success idx
    cases h : f stop update with
    | unavailable =>
      simp only [save_stop_go, h]
      rw [List.countP_cons]
      simpa using ih success (idx + 1)
    | ok =>
      simp [save_stop_go, h, List.countP_cons]

/-- C4: `saveStop` setter policy.  On an empty setter list `save_stop`
raises `MissingSetters`; it raises `StopSetterUnavailable` iff the list is
non-empty and every setter signals `StopSetterUnavailable` (any other
outcome counts as success); with the effective `use_all_stop_setters` flag
false, at most one invoked setter succeeds, and when setters `0 .. k-1` are
unavailable and setter `k` succeeds the iteration stops at `k`; with the
flag true every setter is invoked exactly once, in order, whatever the
outcomes. -/
theorem save_stop_policy (pb : PyBuses) (stop : Stop) (update : Bool)
    (uas : Option Bool) (setters : List StopSetterF)
    (hset : setters = pb.get_stop_setters)
    (useAll : Bool) (huse : useAll = uas.getD pb.use_all_stop_setters) :
    (setters = [] → pb.save_stop stop update uas = (.missingSetters, []))
    ∧ ((pb.save_stop stop update uas).1 = .setterUnavailable ↔
        setters ≠ [] ∧ ∀ f ∈ setters, f stop update = .unavailable)
    ∧ (useAll = false →
        ((pb.save_stop stop update uas).2.countP (fun c => c.2 == SetterOutcome.ok)) ≤ 1
        ∧ ∀ (k : Nat) (hk : k < setters.length),
            (∀ f ∈ setters.take k, f stop update = .unavailable) →
            setters.get ⟨k, hk⟩ stop update = .ok →
            pb.save_stop stop update uas =
              (.ok, (List.range k).map (fun i => (i, SetterOutcome.unavailable))
                ++ [(k, SetterOutcome.ok)]))
    ∧ (useAll = true →
        (pb.save_stop stop update uas).2.map Prod.fst = List.range setters.length
        ∧ ((∃ f ∈ setters, f stop update = .ok) →
            (pb.save_stop stop update uas).1 = .ok)) := by
  subst hset huse
  rw [PyBuses.save_stop]
  by_cases hemp : (pb.get_stop_setters).isEmpty = true
  · have hnil := List.isEmpty_iff.mp hemp
    rw [if_pos hemp]
    refine ⟨fun _ => rfl, by simp [hnil], ?_, ?_⟩
    · intro h'
      refine ⟨by simp, ?_⟩
      intro k hk
      rw [hnil] at hk
      simp at hk
    · intro h'
      rw [hnil]
      simp
  · have hnil : pb.get_stop_setters ≠ [] := fun h => hemp (List.isEmpty_iff.mpr h)
    rw [if_neg hemp]
    dsimp only
    refine ⟨fun h => absurd h hnil, ?_, ?_, ?_⟩
    · constructor
      · intro h
        refine ⟨hnil, ?_⟩
        by_cases hs : (save_stop_go pb.get_stop_setters stop update
            (uas.getD pb.use_all_stop_setters) false 0).1 = true
        · rw [if_pos hs] at h; cases h
        · exact (save_stop_go_failure stop update _ _ _ 0
            (Bool.eq_false_iff.mpr hs)).2
      · intro ⟨_, hall⟩
        rw [save_stop_go_all_unavailable stop update _ _ false 0 hall]
        simp
    · intro huff
      rw [huff]
      constructor
      · exact save_stop_go_at_most_one_ok stop update _ false 0
      · intro k hk hbefore hok
        rw [save_stop_go_first_success stop update _ k false 0 hk hbefore hok]
        simp
    · intro hut
      rw [hut]
      rw [save_stop_go_useAll stop update _ false 0]
      constructor
      · rw [List.map_map]
        have hcomp : (Prod.fst ∘ fun p : Nat × StopSetterF => (p.1, p.2 stop update))
            = Prod.fst := by
          funext p
          rfl
        rw [hcomp, List.enumFrom_map_fst]
        exact (List.range_eq_range' _).symm
      · intro ⟨f, hf, hok⟩
        have hany : pb.get_stop_setters.any (fun f => f stop update == .ok) = true :=
          List.any_eq_true.mpr ⟨f, hf, by rw [hok]; rfl⟩
        simp [hany]

/-- C4 witness: setters `[unavailable, ok]` with the flag false — the save
succeeds, setter 0 is skipped, setter 1 succeeds and iteration stops
there. -/
theorem save_stop_policy_witness :
    pbFallback.save_stop stopMain true none =
      (.ok, [(0, SetterOutcome.unavailable), (1, SetterOutcome.ok)]) := by
  have h := ((save_stop_policy pbFallback stopMain true none
    pbFallback.get_stop_setters rfl false rfl).2.2.1 rfl).2 1 (by decide)
    (by
      intro f hf
      simp only [pbFallback, PyBuses.get_stop_setters, List.take,
        List.mem_singleton] at hf
      rw [hf]
      rfl)
    rfl
  rw [h]
  rfl

/-! ## Lemmas about the `delete_stop` loop -/

/-- With `use_all_stop_deleters = True` the loop never breaks: it calls
every deleter in order and succeeds iff the flag was already set or some
deleter returns normally. -/
theorem delete_stop_go_useAll (stopid : Int) (deleters : List StopDeleterF) :
    ∀ (success : Bool) (idx : Nat),
    delete_stop_go deleters stopid true success idx =
      (success || deleters.any (fun f => f stopid == .ok),
        (deleters.enumFrom idx).map (fun p => (p.1, p.2 stopid))) := by
  induction deleters with
  | nil => intro success idx; simp [delete_stop_go]
  | cons f rest ih =>
    intro success idx
    cases h : f stopid with
    | unavailable =>
      simp only [delete_stop_go, h, ih]
      simp [h, show (DeleterOutcome.unavailable == DeleterOutcome.ok) = false from rfl]
    | ok =>
      simp only [delete_stop_go, h, if_pos rfl, ih]
      simp [h, show (DeleterOutcome.ok == DeleterOutcome.ok) = true from rfl]

/-- A loop started with `success = True` reports success. -/
theorem delete_stop_go_success_true (stopid : Int) (deleters : List StopDeleterF) :
    ∀ (useAll : Bool) (idx : Nat),
    (delete_stop_go deleters stopid useAll true idx).1 = true := by
  induction deleters with
  | nil => intro useAll idx; simp [delete_stop_go]
  | cons f rest ih =>
    intro useAll idx
    cases h : f stopid with
    | unavailable => simp only [delete_stop_go, h]; exact ih useAll (idx + 1)
    | ok =>
      cases useAll with
      | true => simp only [delete_stop_go, h, if_pos rfl]; exact ih true (idx + 1)
      | false => simp [delete_stop_go, h]

/-- If the loop reports failure, every deleter signalled
`StopDeleterUnavailable`. -/
theorem delete_stop_go_failure (stopid : Int) (deleters : List StopDeleterF) :
    ∀ (useAll success : Bool) (idx : Nat),
    (delete_stop_go deleters stopid useAll success idx).1 = false →
    success = false ∧ ∀ f ∈ deleters, f stopid = .unavailable := by
  induction deleters with
  | nil => intro useAll success idx h; simp [delete_stop_go] at h; simp [h]
  | cons f rest ih =>
    intro useAll success idx hres
    cases h : f stopid with
    | unavailable =>
      rw [delete_stop_go, h] at hres
      obtain ⟨hs, hall⟩ := ih useAll success (idx + 1) hres
      exact ⟨hs, by
        intro f' hf'
        rcases List.mem_cons.mp hf' with rfl | hmem
        · exact h
        · exact hall f' hmem⟩
    | ok =>
      cases useAll with
      | true =>
        rw [delete_stop_go, h, if_pos rfl] at hres
        rw [delete_stop_go_success_true stopid rest true (idx + 1)] at hres
        cases hres
      | false => rw [delete_stop_go, h, if_neg (by simp)] at hres; cases hres

/-- If every deleter is unavailable, the loop calls all of them, in order,
and keeps its incoming `success` flag. -/
theorem delete_stop_go_all_unavailable (stopid : Int) (deleters : List StopDeleterF) :
    ∀ (useAll success : Bool) (idx : Nat),
    (∀ f ∈ deleters, f stopid = .unavailable) →
    delete_stop_go deleters stopid useAll success idx =
      (success, (List.range deleters.length).map
        (fun i => (idx + i, DeleterOutcome.unavailable))) := by
  induction deleters with
  | nil => intro useAll success idx _; simp [delete_stop_go]
  | cons f rest ih =>
    intro useAll success idx h
    have hf : f stopid = .unavailable := h f (List.mem_cons_self ..)
    simp only [delete_stop_go, hf]
    rw [ih useAll success (idx + 1) (fun f' hf' => h f' (List.mem_cons_of_mem _ hf'))]
    rw [List.length_cons]
    exact congrArg _
      (range_map_shift (fun i => (i, DeleterOutcome.unavailable)) rest.length idx)

/-- C8: `deleteStop` deleter policy.  On an empty deleter list
`delete_stop` raises `MissingDeleters`; it raises `StopDeleterUnavailable`
iff the list is non-empty and every deleter signals
`StopDeleterUnavailable`; a deleter signalling unavailable is skipped and
any normal return counts as success (one normally-returning deleter makes
the whole call succeed); with the default `use_all_stop_deleters = True`
every deleter in the list is invoked exactly once, in order, whatever the
outcomes. -/
theorem delete_stop_policy (pb : PyBuses) (stopid : Int)
    (ds : List StopDeleterF) (hds : ds = pb.get_stop_deleters) :
    (ds = [] → pb.delete_stop stopid = (.missingDeleters, []))
    ∧ ((pb.delete_stop stopid).1 = .deleterUnavailable ↔
        ds ≠ [] ∧ ∀ f ∈ ds, f stopid = .unavailable)
    ∧ (pb.use_all_stop_deleters = true →
        (pb.delete_stop stopid).2.map Prod.fst = List.range ds.length)
    ∧ ((∃ f ∈ ds, f stopid = .ok) → (pb.delete_stop stopid).1 = .ok) := by
  subst hds
  rw [PyBuses.delete_stop]
  by_cases hemp : (pb.get_stop_deleters).isEmpty = true
  · have hnil := List.isEmpty_iff.mp hemp
    rw [if_pos hemp]
    refine ⟨fun _ => rfl, by simp [hnil], ?_, ?_⟩
    · intro h'
      rw [hnil]
      simp
    · intro ⟨f, hf, _⟩
      rw [hnil] at hf
      cases hf
  · have hnil : pb.get_stop_deleters ≠ [] := fun h => hemp (List.isEmpty_iff.mpr h)
    rw [if_neg hemp]
    dsimp only
    refine ⟨fun h => absurd h hnil, ?_, ?_, ?_⟩
    · constructor
      · intro h
        refine ⟨hnil, ?_⟩
        by_cases hs : (delete_stop_go pb.get_stop_deleters stopid
            pb.use_all_stop_deleters false 0).1 = true
        · rw [if_pos hs] at h; cases h
        · exact (delete_stop_go_failure stopid _ _ _ 0
            (Bool.eq_false_iff.mpr hs)).2
      · intro ⟨_, hall⟩
        rw [delete_stop_go_all_unavailable stopid _ _ false 0 hall]
        simp
    · intro hut
      rw [hut]
      rw [delete_stop_go_useAll stopid _ false 0]
      rw [List.map_map]
      have hcomp : (Prod.fst ∘ fun p : Nat × StopDeleterF => (p.1, p.2 stopid))
          = Prod.fst := by
        funext p
        rfl
      rw [hcomp, List.enumFrom_map_fst]
      exact (List.range_eq_range' _).symm
    · intro ⟨f, hf, hok⟩
      by_cases hs : (delete_stop_go pb.get_stop_deleters stopid
          pb.use_all_stop_deleters false 0).1 = true
      · rw [if_pos hs]
      · have hall := (delete_stop_go_failure stopid _ _ _ 0
          (Bool.eq_false_iff.mpr hs)).2
        rw [hall f hf] at hok
        cases hok

/-- C8 witness: deleters `[unavailable, ok]` with the default flag — the
deletion succeeds and both deleters are invoked, in order. -/
theorem delete_stop_policy_witness :
    (pbFallback.delete_stop 10).1 = .ok
    ∧ (pbFallback.delete_stop 10).2.map Prod.fst = List.range 2 := by
  have h := delete_stop_policy pbFallback 10 pbFallback.get_stop_deleters rfl
  refine ⟨h.2.2.2 ⟨delOk, ?_, rfl⟩, h.2.2.1 rfl⟩
  simp only [pbFallback, PyBuses.get_stop_deleters]
  exact List.mem_cons_of_mem _ (List.mem_cons_self ..)

/-! ## Stability and sortedness of the bus sort -/

/-- Filter-stability of `orderedInsert`: inserting `x` commutes with
filtering by a predicate `p`, provided every element that `x` jumps over
(one with `¬ r x y`) fails `p` whenever `x` satisfies it. -/
theorem filter_orderedInsert {α : Type} (r : α → α → Prop) [DecidableRel r]
    (p : α → Bool) (x : α)
    (h : ∀ y, p x = true → ¬ r x y → p y = false) :
    ∀ l : List α, (l.orderedInsert r x).filter p =
      if p x then x :: l.filter p else l.filter p := by
  intro l
  induction l with
  | nil => cases hpx : p x <;> simp [List.orderedInsert, List.filter, hpx]
  | cons b l ih =>
    rw [List.orderedInsert]
    by_cases hrb : r x b
    · rw [if_pos hrb, List.filter_cons]
    · rw [if_neg hrb]
      cases hpx : p x with
      | true =>
        have hpb : p b = false := h b hpx hrb
        simp [List.filter_cons, hpx, hpb, ih]
      | false => simp [List.filter_cons, hpx, ih]

/-- Filter-stability of `insertionSort`: under the same jump condition the
sorted list filters to exactly what the input filters to — elements in one
filter class keep their relative order. -/
theorem filter_insertionSort {α : Type} (r : α → α → Prop) [DecidableRel r]
    (p : α → Bool)
    (h : ∀ x y, p x = true → ¬ r x y → p y = false) :
    ∀ l : List α, (l.insertionSort r).filter p = l.filter p := by
  intro l
  induction l with
  | nil => rfl
  | cons b l ih =>
    rw [List.insertionSort, filter_orderedInsert r p b (h b), ih,
      List.filter_cons]

/-- The stable key-sort is a permutation of its input. -/
theorem pySortByKey_perm {α κ : Type} [LinearOrder κ] (k : α → κ)
    (reverse : Bool) (l : List α) : (pySortByKey k reverse l).Perm l := by
  rw [pySortByKey]
  by_cases h : reverse = true
  · rw [if_pos h]
    exact List.perm_insertionSort _ _
  · rw [if_neg h]
    exact List.perm_insertionSort _ _

/-- The stable key-sort keeps the relative order of elements inside any
predicate class that is constant across unequal keys being swapped —
in particular, of elements with equal keys: filtering by the predicate
returns them in input order. -/
theorem pySortByKey_filter {α κ : Type} [LinearOrder κ] (k : α → κ)
    (reverse : Bool) (l : List α) (p : α → Bool)
    (hp : ∀ x y, p x = true → k x ≠ k y → p y = false) :
    (pySortByKey k reverse l).filter p = l.filter p := by
  rw [pySortByKey]
  by_cases h : reverse = true
  · rw [if_pos h]
    apply filter_insertionSort
    intro x y hx hr
    exact hp x y hx (ne_of_lt (lt_of_not_le hr))
  · rw [if_neg h]
    apply filter_insertionSort
    intro x y hx hr
    exact hp x y hx (ne_of_gt (lt_of_not_le hr))

/-- Without `reverse` the stable key-sort is ascending in the key. -/
theorem pySortByKey_sorted_asc {α κ : Type} [LinearOrder κ] (k : α → κ)
    (l : List α) :
    (pySortByKey k false l).Sorted (fun a b => k a ≤ k b) := by
  rw [pySortByKey, if_neg (by simp)]
  haveI : IsTotal α (fun a b => k a ≤ k b) := ⟨fun a b => le_total _ _⟩
  haveI : IsTrans α (fun a b => k a ≤ k b) := ⟨fun _ _ _ h1 h2 => le_trans h1 h2⟩
  exact List.sorted_insertionSort _ _

/-- With `reverse` the stable key-sort is descending in the key. -/
theorem pySortByKey_sorted_desc {α κ : Type} [LinearOrder κ] (k : α → κ)
    (l : List α) :
    (pySortByKey k true l).Sorted (fun a b => k b ≤ k a) := by
  rw [pySortByKey, if_pos rfl]
  haveI : IsTotal α (fun a b => k b ≤ k a) := ⟨fun a b => (le_total _ _).symm⟩
  haveI : IsTrans α (fun a b => k b ≤ k a) := ⟨fun _ _ _ h1 h2 => le_trans h2 h1⟩
  exact List.sorted_insertionSort _ _

/-- If bus getters `0 .. k-1` are unavailable and getter `k` returns
`bs`, the `get_buses` loop returns `bs` sorted. -/
theorem get_buses_go_reach (stopid : Int) (sort_by : Option Int)
    (reverse : Bool) (getters : List BusGetterF) :
    ∀ (k : Nat) (hk : k < getters.length) (bs : List Bus),
    (∀ g ∈ getters.take k, g stopid = .unavailable) →
    getters.get ⟨k, hk⟩ stopid = .ok bs →
    get_buses_go getters stopid sort_by reverse =
      .ok (pySortBuses bs sort_by reverse) := by
  induction getters with
  | nil => intro k hk; simp at hk
  | cons g rest ih =>
    intro k hk bs hbefore hok
    cases k with
    | zero =>
      have hok' : g stopid = .ok bs := hok
      simp [get_buses_go, hok']
    | succ j =>
      have hg : g stopid = .unavailable := by
        apply hbefore g
        rw [List.take_succ_cons]
        exact List.mem_cons_self ..
      simp only [get_buses_go, hg]
      exact ih j (by simpa using hk) bs
        (fun g' hg' => hbefore g' (by rw [List.take_succ_cons]; exact List.mem_cons_of_mem _ hg'))
        hok

/-- C5: `getBuses` sorting.  When bus getters `0 .. k-1` are unavailable
and getter `k` supplies the list `bs`, `get_buses` returns a permutation
`l` of `bs` such that: with `sort_by = TIME` (resp. `LINE`, `ROUTE`) `l` is
sorted by the respective Bus field, ascending, or descending when
`reverse`; for every key value, the buses carrying that value appear in
`l` in their original `bs` order (stability, for every `sort_by`); and any
`sort_by` outside the three sorting keys — `NONE`, `None`, or any other
value — leaves the provider order untouched (`l = bs`). -/
theorem get_buses_sorting (pb : PyBuses) (stopid : Int) (sort_by : Option Int)
    (reverse : Bool) (gb : List BusGetterF) (hgb : gb = pb.get_bus_getters)
    (k : Nat) (hk : k < gb.length) (bs : List Bus)
    (hbefore : ∀ g ∈ gb.take k, g stopid = .unavailable)
    (hok : gb.get ⟨k, hk⟩ stopid = .ok bs)
    (l : List Bus) (hl : l = pySortBuses bs sort_by reverse) :
    pb.get_buses stopid sort_by reverse = .ok l
    ∧ l.Perm bs
    ∧ (sort_by = some BusSortMethods_TIME →
        (reverse = false → l.Sorted (fun a b => a.time ≤ b.time))
        ∧ (reverse = true → l.Sorted (fun a b => b.time ≤ a.time))
        ∧ ∀ v : Int, l.filter (fun b => b.time == v) = bs.filter (fun b => b.time == v))
    ∧ (sort_by = some BusSortMethods_LINE →
        (reverse = false → l.Sorted (fun a b => a.line ≤ b.line))
        ∧ (reverse = true → l.Sorted (fun a b => b.line ≤ a.line))
        ∧ ∀ v : String, l.filter (fun b => b.line == v) = bs.filter (fun b => b.line == v))
    ∧ (sort_by = some BusSortMethods_ROUTE →
        (reverse = false → l.Sorted (fun a b => a.route ≤ b.route))
        ∧ (reverse = true → l.Sorted (fun a b => b.route ≤ a.route))
        ∧ ∀ v : String, l.filter (fun b => b.route == v) = bs.filter (fun b => b.route == v))
    ∧ (sort_by ≠ some BusSortMethods_TIME → sort_by ≠ some BusSortMethods_LINE →
        sort_by ≠ some BusSortMethods_ROUTE → l = bs) := by
  subst hgb hl
  have hemp : (pb.get_bus_getters).isEmpty ≠ true := by
    intro h
    rw [List.isEmpty_iff.mp h] at hk
    simp at hk
  have hbeq : ∀ {κ : Type} [inst : DecidableEq κ] (kf : Bus → κ) (v : κ),
      ∀ x y : Bus, (kf x == v) = true → kf x ≠ kf y → (kf y == v) = false := by
    intro κ inst kf v x y hx hne
    have hx' : kf x = v := by simpa using hx
    simp only [beq_eq_false_iff_ne, ne_eq]
    intro hy
    exact hne (hx'.trans hy.symm)
  refine ⟨?_, ?_, ?_, ?_, ?_, ?_⟩
  · rw [PyBuses.get_buses, if_neg hemp]
    exact get_buses_go_reach stopid sort_by reverse _ k hk bs hbefore hok
  · rw [pySortBuses]
    split_ifs with h1 h2 h3
    · exact pySortByKey_perm _ reverse bs
    · exact pySortByKey_perm _ reverse bs
    · exact pySortByKey_perm _ reverse bs
    · exact List.Perm.refl bs
  · intro h1
    rw [pySortBuses, if_pos h1]
    exact ⟨fun hr => by rw [hr]; exact pySortByKey_sorted_asc _ bs,
      fun hr => by rw [hr]; exact pySortByKey_sorted_desc _ bs,
      fun v => pySortByKey_filter _ reverse bs _ (hbeq (fun b => b.time) v)⟩
  · intro h2
    have h1 : sort_by ≠ some BusSortMethods_TIME := by
      rw [h2]; simp [BusSortMethods_LINE, BusSortMethods_TIME]
    rw [pySortBuses, if_neg h1, if_pos h2]
    exact ⟨fun hr => by rw [hr]; exact pySortByKey_sorted_asc _ bs,
      fun hr => by rw [hr]; exact pySortByKey_sorted_desc _ bs,
      fun v => pySortByKey_filter _ reverse bs _ (hbeq (fun b => b.line) v)⟩
  · intro h3
    have h1 : sort_by ≠ some BusSortMethods_TIME := by
      rw [h3]; simp [BusSortMethods_ROUTE, BusSortMethods_TIME]
    have h2 : sort_by ≠ some BusSortMethods_LINE := by
      rw [h3]; simp [BusSortMethods_ROUTE, BusSortMethods_LINE]
    rw [pySortBuses, if_neg h1, if_neg h2, if_pos h3]
    exact ⟨fun hr => by rw [hr]; exact pySortByKey_sorted_asc _ bs,
      fun hr => by rw [hr]; exact pySortByKey_sorted_desc _ bs,
      fun v => pySortByKey_filter _ reverse bs _ (hbeq (fun b => b.route) v)⟩
  · intro h1 h2 h3
    rw [pySortBuses, if_neg h1, if_neg h2, if_neg h3]

/-- C5 witness: buses `[busA (time 7), busB (time 3), busC (time 7)]`
supplied by the second getter (the first is unavailable), sorted by TIME:
result `[busB, busA, busC]` — sorted by time, a permutation, and the two
buses with `time = 7` keep their original relative order. -/
theorem get_buses_sorting_witness :
    pbBuses.get_buses 1 (some BusSortMethods_TIME) false = .ok [busB, busA, busC]
    ∧ ([busB, busA, busC] : List Bus).Sorted (fun a b => a.time ≤ b.time)
    ∧ ([busB, busA, busC] : List Bus).filter (fun b => b.time == 7) = [busA, busC] := by
  obtain ⟨hres, -, hTime, -, -, -⟩ := get_buses_sorting pbBuses 1
    (some BusSortMethods_TIME) false pbBuses.get_bus_getters rfl 1 (by decide)
    [busA, busB, busC]
    (by
      intro g hg
      simp only [pbBuses, PyBuses.get_bus_getters, List.take,
        List.mem_singleton] at hg
      rw [hg])
    rfl
    [busB, busA, busC] (by decide)
  exact ⟨hres, (hTime rfl).1 rfl, by decide⟩

/-! ## Lemmas about the scan cursor and the ID range -/

/-- Closed form of `n` successive atomic claims: the counter yields
`s, s+1, ...` until either the budget `n` or the limit is exhausted. -/
theorem runGets_closed (n : Nat) : ∀ (s e : Int),
    runGets n { value := s, limit := e } =
      (List.range (min n (e + 1 - s).toNat)).map (fun i : Nat => s + (i : Int)) := by
  induction n with
  | zero => intro s e; simp [runGets]
  | succ n ih =>
    intro s e
    by_cases h : s > e
    · have h0 : (e + 1 - s).toNat = 0 := by omega
      rw [runGets]
      simp [Counter.get, h, h0]
    · have h1 : (e + 1 - s).toNat = (e - s).toNat + 1 := by omega
      rw [runGets]
      simp only [Counter.get, if_neg h]
      rw [ih (s + 1) e]
      have h2 : (e + 1 - (s + 1)).toNat = (e - s).toNat := by omega
      rw [h2, h1, Nat.succ_min_succ, List.range_succ_eq_map, List.map_cons,
        List.map_map]
      refine congrArg₂ _ (by simp) ?_
      apply List.map_congr_left
      intro a _
      simp only [Function.comp_apply, Nat.succ_eq_add_one]
      push_cast
      ring

/-- Membership in `range(start, end+1)`. -/
theorem mem_idRange (start endId v : Int) :
    v ∈ idRange start endId ↔ start ≤ v ∧ v ≤ endId := by
  rw [idRange]
  simp only [List.mem_map, List.mem_range]
  constructor
  · intro ⟨i, hi, hv⟩
    omega
  · intro ⟨h1, h2⟩
    exact ⟨(v - start).toNat, by omega, by omega⟩

/-- `range(start, end+1)` is strictly increasing. -/
theorem pairwise_idRange (start endId : Int) :
    (idRange start endId).Pairwise (· < ·) := by
  rw [idRange, List.pairwise_map]
  exact (List.pairwise_lt_range _).imp (fun h => by omega)

/-- `range(start, end+1)` has no duplicates. -/
theorem nodup_idRange (start endId : Int) : (idRange start endId).Nodup :=
  (pairwise_idRange start endId).imp (fun h => ne_of_lt h)

/-- Every ID of `[start, end]` occurs exactly once in
`range(start, end+1)`, and nothing else occurs. -/
theorem count_idRange (start endId v : Int) :
    (idRange start endId).count v =
      if start ≤ v ∧ v ≤ endId then 1 else 0 := by
  split_ifs with h
  · exact List.count_eq_one_of_mem (nodup_idRange start endId)
      ((mem_idRange start endId v).mpr h)
  · exact List.count_eq_zero.mpr (fun hm => h ((mem_idRange start endId v).mp hm))

/-- With enough claims the counter yields exactly `range(start, end+1)`. -/
theorem runGets_eq_idRange (n : Nat) (s e : Int)
    (hn : (e + 1 - s).toNat ≤ n) :
    runGets n { value := s, limit := e } = idRange s e := by
  rw [runGets_closed n s e, idRange, min_eq_right hn]

/-- C6: scan cursor exactly-once.  A threaded `find_all_stops` initializes
the shared cursor to `start` with limit `end`; an atomic `Counter.get`
claim is refused exactly when the value to claim exceeds the limit;
successive claims yield `start, start+1, ...`, strictly increasing (so no
value is ever yielded twice); and once claims are exhausted, every ID of
`[start, end]` has been yielded exactly once and no other ID ever. -/
theorem counter_exactly_once (c : Counter) (n : Nat) (s e v : Int) :
    (c.get = none ↔ c.value > c.limit)
    ∧ runGets n { value := s, limit := e } =
        (List.range (min n (e + 1 - s).toNat)).map (fun i : Nat => s + (i : Int))
    ∧ (runGets n { value := s, limit := e }).Pairwise (· < ·)
    ∧ ((e + 1 - s).toNat ≤ n →
        runGets n { value := s, limit := e } = idRange s e
        ∧ (runGets n { value := s, limit := e }).count v =
            if s ≤ v ∧ v ≤ e then 1 else 0)
    ∧ (∀ (pb : PyBuses) (endId start threads : Int) (update uag : Bool)
        (uas : Option Bool),
        ((pb.get_stop_getters true).map RegGetter.fn) ≠ [] →
        pb.get_stop_setters ≠ [] → 0 < threads →
        pb.find_all_stops endId start threads update uag uas =
          .threadsStarted { value := start, limit := endId }) := by
  refine ⟨?_, runGets_closed n s e, ?_, ?_, ?_⟩
  · rw [Counter.get]
    split_ifs with h
    · simp [h]
    · simp [h]
  · rw [runGets_closed n s e, List.pairwise_map]
    exact (List.pairwise_lt_range _).imp (fun h => by omega)
  · intro hn
    refine ⟨runGets_eq_idRange n s e hn, ?_⟩
    rw [runGets_eq_idRange n s e hn]
    exact count_idRange s e v
  · intro pb endId start threads update uag uas hg hs ht
    rw [PyBuses.find_all_stops]
    rw [if_neg (fun h => hg (List.isEmpty_iff.mp h))]
    rw [if_neg (fun h => hs (List.isEmpty_iff.mp h))]
    rw [if_neg (by omega)]

/-- C6 witness: cursor over `[1, 3]` — five claims yield `[1, 2, 3]`,
each of `1..3` exactly once, and a fresh claim on the exhausted cursor is
refused; a threaded scan over `pbScan` starts with cursor `⟨1, 3⟩`. -/
theorem counter_exactly_once_witness :
    runGets 5 { value := 1, limit := 3 } = [1, 2, 3]
    ∧ (runGets 5 { value := 1, limit := 3 }).count 2 = 1
    ∧ Counter.get { value := 4, limit := 3 } = none
    ∧ pbScan.find_all_stops 3 1 2 true false none =
        .threadsStarted { value := 1, limit := 3 } := by
  have h := counter_exactly_once { value := 4, limit := 3 } 5 1 3 2
  have hrun : runGets 5 { value := 1, limit := 3 } = idRange 1 3 ∧
      (runGets 5 { value := 1, limit := 3 }).count 2 = if (1:Int) ≤ 2 ∧ (2:Int) ≤ 3 then 1 else 0 :=
    h.2.2.2.1 (by norm_num)
  refine ⟨hrun.1.trans (by decide), hrun.2.trans (by norm_num), ?_, ?_⟩
  · exact h.1.mpr (by norm_num)
  · exact h.2.2.2.2 pbScan 3 1 2 true false none
      (fun hnil => List.noConfusion hnil)
      (fun hnil => List.noConfusion hnil) (by norm_num)

/-- C7: sequential scan.  With `threads ≤ 0` and the preconditions met,
`find_all_stops` probes exactly the IDs of `range(start, end+1)`, one at a
time in ascending order (the probed-ID list is strictly increasing and
contains precisely the IDs of `[start, end]`), running the probe
`_find_stop_and_save` on each. -/
theorem find_all_stops_sequential (pb : PyBuses) (endId start threads : Int)
    (update uag : Bool) (uas : Option Bool) (gs : List StopGetterF)
    (hgs : gs = (pb.get_stop_getters true).map RegGetter.fn)
    (hg : gs ≠ []) (hs : pb.get_stop_setters ≠ []) (ht : threads ≤ 0) :
    pb.find_all_stops endId start threads update uag uas =
      .ok ((idRange start endId).map (fun stopid =>
        (stopid, find_stop_and_save pb gs stopid update uag uas)))
    ∧ (idRange start endId).Pairwise (· < ·)
    ∧ (∀ v : Int, v ∈ idRange start endId ↔ start ≤ v ∧ v ≤ endId) := by
  subst hgs
  refine ⟨?_, pairwise_idRange start endId, fun v => mem_idRange start endId v⟩
  rw [PyBuses.find_all_stops]
  rw [if_neg (fun h => hg (List.isEmpty_iff.mp h))]
  rw [if_neg (fun h => hs (List.isEmpty_iff.mp h))]
  rw [if_pos ht]

/-- C7 witness: the spec section 8 scenario — `threads = 0` over `[5, 5]`
with one online getter finding `stopMain` and one setter: the single probe
of ID 5 invokes the getter once and calls the setter exactly once, with
that Stop. -/
theorem find_all_stops_sequential_witness :
    pbSingle.find_all_stops 5 5 0 true false none =
      .ok [(5, { gettersInvoked := [0], setterCalls := [(0, stopMain)] })] := by
  have h := (find_all_stops_sequential pbSingle 5 5 0 true false none
    ((pbSingle.get_stop_getters true).map RegGetter.fn) rfl
    (fun hnil => List.noConfusion hnil)
    (fun hnil => List.noConfusion hnil)
    (by norm_num)).1
  rw [h]
  rfl

/-! ## The per-ID probe of the bulk scanner -/

/-- C1 counterexample: the claim says that once a getter returns a Stop and
it is saved, the probe for that ID is done.  In `pbScan` getter 0 returns
`stopMain` for ID 5 and the save succeeds, yet the probe goes on: getter 1
is also invoked (trace `[0, 1]`, not `[0]`) and its Stop is saved as well
(two setter calls). -/
theorem scanner_probe_not_done_after_success :
    getOkMain.fn 5 = .ok stopMain
    ∧ (pbScan.get_stop_getters true).map RegGetter.fn = [getOkMain.fn, getOkHarbour.fn]
    ∧ find_stop_and_save pbScan [getOkMain.fn, getOkHarbour.fn] 5 true false none =
        { gettersInvoked := [0, 1], setterCalls := [(0, stopMain), (0, stopHarbour)] }
    ∧ ([0, 1] : List Nat) ≠ [0] :=
  ⟨rfl, rfl, rfl, by decide⟩

/-- The probe loop on a chain with no not-found answer: every getter is
invoked and every returned Stop is saved, in order. -/
theorem find_stop_and_save_go_all (pb : PyBuses) (stopid : Int)
    (update uag : Bool) (uas : Option Bool) (gs : List StopGetterF) :
    ∀ idx, (∀ g ∈ gs, g stopid ≠ .notFound ∧ g stopid ≠ .notExist) →
    find_stop_and_save_go pb gs stopid update uag uas idx =
      { gettersInvoked := (List.range gs.length).map (fun i => idx + i)
        setterCalls := (gs.map (fun g =>
          match g stopid with
          | .ok s => probeSaveCalls pb s update uas
          | _ => ([] : List (Nat × Stop)))).flatten } := by
  induction gs with
  | nil => intro idx _; simp [find_stop_and_save_go]
  | cons g rest ih =>
    intro idx hno
    have hrest := ih (idx + 1) (fun g' hg' => hno g' (List.mem_cons_of_mem _ hg'))
    cases h : g stopid with
    | notFound => exact absurd h (hno g (List.mem_cons_self ..)).1
    | notExist => exact absurd h (hno g (List.mem_cons_self ..)).2
    | unavailable =>
      simp only [find_stop_and_save_go, h, hrest]
      rw [List.map_cons, List.flatten_cons, List.length_cons]
      refine congrArg₂ _ (range_map_shift (fun i => i) rest.length idx) ?_
      rw [h]
      exact (List.nil_append _).symm
    | ok s =>
      simp only [find_stop_and_save_go, h, hrest]
      rw [List.map_cons, List.flatten_cons, List.length_cons]
      refine congrArg₂ _ (range_map_shift (fun i => i) rest.length idx) ?_
      rw [h]
      rfl

/-- C1 (amended): per-ID probe of the Bulk Scanner.  Whenever a Stop-Getter
returns a Stop, the scanner saves it via `save_stop` (swallowing
`StopSetterUnavailable`), but the probe for that ID is **not** done: the
scanner continues with the remaining providers for that ID, saving every
further success, until the providers are exhausted (or a not-found signal
ends the probe).  Stated for chains without not-found answers: every
provider is invoked exactly once, in order, and the setter calls are the
concatenation of the `save_stop` calls of each successful getter, in
chain order. -/
theorem scanner_probe_saves_and_continues (pb : PyBuses)
    (gs : List StopGetterF) (stopid : Int) (update uag : Bool)
    (uas : Option Bool)
    (hno : ∀ g ∈ gs, g stopid ≠ .notFound ∧ g stopid ≠ .notExist) :
    (find_stop_and_save pb gs stopid update uag uas).gettersInvoked =
      List.range gs.length
    ∧ (find_stop_and_save pb gs stopid update uag uas).setterCalls =
        (gs.map (fun g =>
          match g stopid with
          | .ok s => probeSaveCalls pb s update uas
          | _ => ([] : List (Nat × Stop)))).flatten := by
  rw [find_stop_and_save, find_stop_and_save_go_all pb stopid update uag uas gs 0 hno]
  exact ⟨range_map_zero_add gs.length, rfl⟩

/-- C1 witness: over `pbScan`, both getters answer for ID 7; the probe
invokes both and saves both Stops via the single setter. -/
theorem scanner_probe_saves_and_continues_witness :
    (find_stop_and_save pbScan [getOkMain.fn, getOkHarbour.fn] 7 true false none).gettersInvoked
      = List.range 2
    ∧ (find_stop_and_save pbScan [getOkMain.fn, getOkHarbour.fn] 7 true false none).setterCalls
      = [(0, stopMain), (0, stopHarbour)] := by
  obtain ⟨h1, h2⟩ := scanner_probe_saves_and_continues pbScan
    [getOkMain.fn, getOkHarbour.fn] 7 true false none
    (by
      intro g hg
      rcases List.mem_cons.mp hg with rfl | hg'
      · exact ⟨fun h => GetterOutcome.noConfusion h, fun h => GetterOutcome.noConfusion h⟩
      · rcases List.mem_singleton.mp hg' with rfl
        exact ⟨fun h => GetterOutcome.noConfusion h, fun h => GetterOutcome.noConfusion h⟩)
  exact ⟨h1, h2.trans (by rfl)⟩

/-! ## The Stop location invariant -/

/-- C9: Stop location invariant.  For every Stop built by the constructor,
`lat` is null iff `lon` is null (passing only one of them yields a Stop
with both null), and `has_location()` is true iff both are non-null. -/
theorem stop_location_invariant (stopid : Int) (name : String)
    (lat lon : Option Rat) (other : Option (List (String × String))) :
    ((Stop.make stopid name lat lon other).lat = none ↔
      (Stop.make stopid name lat lon other).lon = none)
    ∧ ((Stop.make stopid name lat lon other).has_location = true ↔
        ((Stop.make stopid name lat lon other).lat ≠ none
          ∧ (Stop.make stopid name lat lon other).lon ≠ none))
    ∧ ((lat = none ∨ lon = none) →
        (Stop.make stopid name lat lon other).lat = none
        ∧ (Stop.make stopid name lat lon other).lon = none) := by
  cases lat with
  | none => simp [Stop.make, Stop.has_location]
  | some a =>
    cases lon with
    | none => simp [Stop.make, Stop.has_location]
    | some b => simp [Stop.make, Stop.has_location]

/-- C9 witness: a Stop constructed with `lat=None` and `lon=42.1` has both
coordinates null and reports no location; one with both set reports a
location. -/
theorem stop_location_invariant_witness :
    (Stop.make 1 "x" none (some (421/10)) none).lat = none
    ∧ (Stop.make 1 "x" none (some (421/10)) none).lon = none
    ∧ (Stop.make 1 "x" none (some (421/10)) none).has_location = false
    ∧ (Stop.make 1 "x" (some 1) (some 2) none).has_location = true := by
  obtain ⟨hlat, hlon⟩ :=
    (stop_location_invariant 1 "x" none (some (421/10)) none).2.2 (Or.inl rfl)
  refine ⟨hlat, hlon, ?_, ?_⟩
  · rw [Stop.has_location, hlat, hlon]
    rfl
  · exact (stop_location_invariant 1 "x" (some 1) (some 2) none).2.1.mpr
      ⟨fun h => Option.noConfusion h, fun h => Option.noConfusion h⟩

/-! ## Online-getter selection -/

/-- C10: implicit online-getter selection.  `get_stop_getters(online=True)`
returns exactly the registered getters whose `online` attribute equals
`True`, in registration order (a sublist of the registry);
`add_stop_getter` on a callable that rejects attribute assignment appends
it unchanged, and such a getter (no `online = True` attribute) is never
selected as online; consequently a non-empty registry with no getter
flagged online makes `find_stop(stopid, online=True)` and `find_all_stops`
raise `MissingGetters`. -/
theorem online_getter_selection (pb : PyBuses) (f : RegGetter) (online : Bool)
    (stopid endId start threads : Int) (update uag : Bool)
    (uas : Option Bool) :
    ((pb.get_stop_getters true).Sublist pb.stop_getters
      ∧ ∀ g, g ∈ pb.get_stop_getters true ↔
          g ∈ pb.stop_getters ∧ g.onlineAttr = some true)
    ∧ pb.add_stop_getter f online false =
        { pb with stop_getters := pb.stop_getters ++ [f] }
    ∧ (f.onlineAttr ≠ some true →
        (pb.add_stop_getter f online false).get_stop_getters true =
          pb.get_stop_getters true)
    ∧ (pb.stop_getters ≠ [] →
        (∀ g ∈ pb.stop_getters, g.onlineAttr ≠ some true) →
        (pb.find_stop stopid true).1 = .missingGetters
        ∧ pb.find_all_stops endId start threads update uag uas = .missingGetters) := by
  refine ⟨⟨List.filter_sublist _, ?_⟩, rfl, ?_, ?_⟩
  · intro g
    simp [PyBuses.get_stop_getters, List.mem_filter]
  · intro hf
    simp [PyBuses.add_stop_getter, PyBuses.get_stop_getters,
      List.filter_append, hf]
  · intro _ hno
    have hsel : pb.get_stop_getters true = [] := by
      rw [PyBuses.get_stop_getters, if_pos rfl]
      exact List.filter_eq_nil_iff.mpr (fun g hg => by simpa using hno g hg)
    constructor
    · rw [PyBuses.find_stop, hsel]
      simp
    · rw [PyBuses.find_all_stops, hsel]
      simp

/-- C10 witness: `pbNoOnline` has one registered getter carrying no
`online` attribute — `find_stop` with `online=True` and `find_all_stops`
both raise `MissingGetters` even though a getter is registered. -/
theorem online_getter_selection_witness :
    (pbNoOnline.find_stop 7 true).1 = .missingGetters
    ∧ pbNoOnline.find_all_stops 9 1 0 true false none = .missingGetters := by
  refine (online_getter_selection pbNoOnline getOffline true 7 9 1 0 true false
    none).2.2.2 (fun hnil => List.noConfusion hnil) ?_
  intro g hg
  rcases List.mem_singleton.mp hg with rfl
  exact fun hc => Option.noConfusion hc

end PyBusesSpec
